import Mathlib

/-!
Verification of the propdag scheduling engine (graph sorting, graph reversal,
and cache-lifecycle bookkeeping), shallowly embedded from the Python sources
`src/propdag/template/_sort.py`, `src/propdag/template/_model.py`,
`src/propdag/template2/_model.py`, `src/propdag/template2/_sort.py` and
`src/propdag/toy/_forward_node.py`.

Python nodes are objects compared by identity (no `__eq__` / `__hash__`
override on `TNode`), so a node is embedded as a natural-number id.  A graph
is the id list handed to the scheduler plus the `pre_nodes` / `next_nodes`
adjacency lists of every node.  Python dicts keyed by nodes become either
total functions guarded by an explicit key list (the BFS in-degree dict) or
association lists (the cache reference counters).  A Python `raise` becomes
`Except.error` carrying the message; distinct failure modes carry distinct
strings.  Loops whose termination is not structural carry a fuel argument
(decremented on every recursive call) large enough to never run out, which is
proved where a claim needs it.
-/

/-- A computational graph: the node-id sequence passed by the caller, and each
node's predecessor (`pre_nodes`) and successor (`next_nodes`) lists. -/
structure Graph where
  nodes : List Nat
  pre : Nat → List Nat
  next : Nat → List Nat

/-- Every edge endpoint reachable from a listed node is itself listed.  Python
object graphs always satisfy this when the caller passes all wired nodes. -/
def Closed (g : Graph) : Prop :=
  ∀ n ∈ g.nodes, (∀ m ∈ g.pre n, m ∈ g.nodes) ∧ (∀ m ∈ g.next n, m ∈ g.nodes)

/-- Error message of `ValueError("Graph has a cycle, cannot perform topological sort")`. -/
def cycleMsg : String := "Graph has a cycle, cannot perform topological sort"

/-- Error message standing for a Python `KeyError` on a missing dict key. -/
def keyErrorMsg : String := "KeyError"

/-- Sentinel returned when the fuel of an embedded loop runs out.  Sufficient
fuel is supplied at every call site, so this value is never produced (proved
below where claims depend on it). -/
def fuelMsg : String := "FUEL"

/-- `in_degrees[m] -= 1` embedded as a pointwise update of the degree map. -/
def decKey (deg : Nat → Int) (m : Nat) : Nat → Int :=
  fun x => if x = m then deg m - 1 else deg x

/-- The inner `for next_node in node.next_nodes` loop of `topo_sort_forward_bfs`:
decrement each successor's in-degree (KeyError when it is not a dict key) and
enqueue it when the count reaches exactly zero. -/
def processNexts (keys : List Nat) :
    List Nat → (Nat → Int) → List Nat → Except String ((Nat → Int) × List Nat)
  | [], deg, queue => .ok (deg, queue)
  | m :: ms, deg, queue =>
      if m ∈ keys then
        let deg2 := decKey deg m
        let queue2 := if deg2 m = 0 then queue ++ [m] else queue
        processNexts keys ms deg2 queue2
      else .error keyErrorMsg

/-- The `while queue:` loop of `topo_sort_forward_bfs`: pop the queue head,
append it to the order, and process its successors. -/
def bfsLoop (g : Graph) (keys : List Nat) :
    Nat → (Nat → Int) → List Nat → List Nat → Except String (List Nat)
  | _, _, [], sortedNodes => .ok sortedNodes
  | 0, _, _ :: _, _ => .error fuelMsg
  | fuel + 1, deg, q :: rest, sortedNodes =>
      match processNexts keys (g.next q) deg rest with
      | .ok (deg2, queue2) => bfsLoop g keys fuel deg2 queue2 (sortedNodes ++ [q])
      | .error e => .error e

/-- `topo_sort_forward_bfs` (template/_sort.py): Kahn's algorithm seeded with
the nodes of deduplicated-predecessor count zero, followed by the
`len(sorted_nodes) != len(nodes)` cycle check.  The preceding
`_check_input_output_number` call only prints, so it has no embedding.
The in-degree dict keys are the distinct members of `nodes` (key order is
irrelevant: the dict is only read pointwise). -/
def topo_sort_forward_bfs (g : Graph) : Except String (List Nat) :=
  let keys := g.nodes.dedup
  let deg : Nat → Int := fun n => (((g.pre n).dedup.length : Nat) : Int)
  let queue := g.nodes.filter (fun n => decide (deg n = 0))
  match bfsLoop g keys (2 * g.nodes.length + 1) deg queue [] with
  | .ok sortedNodes =>
      if sortedNodes.length = g.nodes.length then .ok sortedNodes else .error cycleMsg
  | .error e => .error e

deriving instance DecidableEq for Except

example : topo_sort_forward_bfs ⟨[0, 1], fun n => if n = 1 then [0] else [],
    fun n => if n = 0 then [1] else []⟩ = .ok [0, 1] := by decide

/-- State of the recursive `dfs` helper of `topo_sort_forward_dfs`:
the `visited` set, the `temp_mark` cycle guard, and the post-order list. -/
structure DfsSt where
  visited : List Nat
  tempMark : List Nat
  postOrder : List Nat
deriving DecidableEq

/-- Largest `next_nodes` length over the listed nodes (used only to size fuel). -/
def maxNext (g : Graph) : Nat :=
  g.nodes.foldr (fun n acc => max (g.next n).length acc) 0

/-- Largest `pre_nodes` length over the listed nodes (used only to size fuel). -/
def maxPre (g : Graph) : Nat :=
  g.nodes.foldr (fun n acc => max (g.pre n).length acc) 0

/-- The recursive `dfs` of `topo_sort_forward_dfs`, presented as a worklist over
sibling nodes so that the recursion is structural in the fuel: `dfs(node)`
checks the cycle guard, marks `node`, recurses into `node.next_nodes`, then
moves `node` from `temp_mark` to `visited` and appends it to the post-order. -/
def dfsList (g : Graph) : Nat → List Nat → DfsSt → Except String DfsSt
  | 0, [], st => .ok st
  | 0, _ :: _, _ => .error fuelMsg
  | _ + 1, [], st => .ok st
  | fuel + 1, node :: ns, st =>
      if node ∈ st.tempMark then .error cycleMsg
      else if node ∈ st.visited then dfsList g fuel ns st
      else
        match dfsList g fuel (g.next node) { st with tempMark := node :: st.tempMark } with
        | .error e => .error e
        | .ok st2 =>
            dfsList g fuel ns
              { visited := node :: st2.visited,
                tempMark := st2.tempMark.erase node,
                postOrder := st2.postOrder ++ [node] }

/-- Fuel sufficient for `dfsList` (proved below): one unit per sibling step and
`maxNext g + 1` units per first visit of a node. -/
def dfsFuel (g : Graph) : Nat :=
  g.nodes.length * (maxNext g + 1) + g.nodes.length + 1

/-- `topo_sort_forward_dfs` (template/_sort.py): run `dfs` from every node with
an empty predecessor list, then apply the `len(sorted_nodes) != len(nodes)`
cycle check and return the reversed post-order. -/
def topo_sort_forward_dfs (g : Graph) : Except String (List Nat) :=
  let roots := g.nodes.filter (fun n => decide ((g.pre n).length = 0))
  match dfsList g (dfsFuel g) roots ⟨[], [], []⟩ with
  | .error e => .error e
  | .ok st =>
      if st.postOrder.length = g.nodes.length then .ok st.postOrder.reverse
      else .error cycleMsg

example : topo_sort_forward_dfs ⟨[0, 1], fun n => if n = 1 then [0] else [],
    fun n => if n = 0 then [1] else []⟩ = .ok [0, 1] := by decide

/-- The recursive `dfs` of `topo_sort_backward` (template/_sort.py), as a
worklist over `pre_nodes` siblings: mark `node` visited, recurse into its
predecessors, then append `node` to the post-order result.  There is no cycle
guard in the source; fuel running out returns the state built so far (the
claims below apply this only to concrete graphs whose fuel provably
suffices because every recursive call consumes one unit). -/
def bwdDfsList (g : Graph) : Nat → List Nat → List Nat × List Nat → List Nat × List Nat
  | 0, _, vr => vr
  | _ + 1, [], vr => vr
  | fuel + 1, node :: ns, vr =>
      if node ∈ vr.1 then bwdDfsList g fuel ns vr
      else
        let vr2 := bwdDfsList g fuel (g.pre node) (node :: vr.1, vr.2)
        bwdDfsList g fuel ns (vr2.1, vr2.2 ++ [node])

/-- Fuel for `bwdDfsList`, sized like `dfsFuel` but over predecessor lists. -/
def bwdFuel (g : Graph) : Nat :=
  g.nodes.length * (maxPre g + 1) + g.nodes.length + 1

/-- One entry of the dict returned by `topo_sort_backward`: the per-node DFS
post-order over predecessor edges, reversed (`backward_sort[::-1]`). -/
def topo_sort_backward (g : Graph) (node : Nat) : List Nat :=
  ((bwdDfsList g (bwdFuel g) [node] ([], [])).2).reverse

/-- `reverse_dag` error for zero input nodes (the `NoInput` failure). -/
def noInputMsg : String := "User graph must have exactly one input node (no predecessors), but found zero."

/-- `reverse_dag` error for more than one input node. -/
def multipleInputsMsg : String := "User graph must have exactly one input node, but found several."

/-- `reverse_dag` error for zero output nodes. -/
def noOutputMsg : String := "User graph must have exactly one output node (no successors), but found zero."

/-- `reverse_dag` error for more than one output node. -/
def multipleOutputsMsg : String := "User graph must have exactly one output node, but found several."

/-- The in-place swap loop of `reverse_dag`: every listed node's `pre_nodes`
and `next_nodes` are exchanged; unlisted ids are untouched. -/
def swapEdges (g : Graph) : Graph :=
  { nodes := g.nodes,
    pre := fun n => if n ∈ g.nodes then g.next n else g.pre n,
    next := fun n => if n ∈ g.nodes then g.pre n else g.next n }

/-- `reverse_dag` (template2/_model.py): validate exactly one input and one
output (in the source's check order), and only then swap every node's edge
lists, returning `(user_input, user_output)`.  The second component is the
state of the caller's graph after the call: unchanged on a validation error,
edge-swapped on success. -/
def reverse_dag (g : Graph) : Except String (Nat × Nat) × Graph :=
  match g.nodes.filter (fun n => decide ((g.pre n).length = 0)),
        g.nodes.filter (fun n => decide ((g.next n).length = 0)) with
  | [], _ => (.error noInputMsg, g)
  | _ :: _ :: _, _ => (.error multipleInputsMsg, g)
  | [_], [] => (.error noOutputMsg, g)
  | [_], _ :: _ :: _ => (.error multipleOutputsMsg, g)
  | [i], [o] => (.ok (i, o), swapEdges g)

/-- `TModel.__init__` error for an unknown sort strategy. -/
def unknownStrategyMsg : String := "Unknown sort strategy"

/-- `TModel.__init__` error: zero input nodes found after sorting. -/
def tNoInputMsg : String := "DAG must have exactly one input node, but found zero. No node has zero predecessors."

/-- `TModel.__init__` error: several input nodes found after sorting. -/
def tMultipleInputsMsg : String := "DAG must have exactly one input node, but found multiple input nodes."

/-- `TModel.__init__` error: zero output nodes found after sorting. -/
def tNoOutputMsg : String := "DAG must have exactly one output node, but found zero. No node has zero successors."

/-- `TModel.__init__` error: several output nodes found after sorting. -/
def tMultipleOutputsMsg : String := "DAG must have exactly one output node, but found multiple output nodes."

/-- `TModel.__init__` (template/_model.py): run the chosen sorter (unknown
strategies fail), then check the single-input / single-output constraint on
the sorted list, in the source's order, and store the sorted nodes.  The
shared-cache and shared-arguments assertions concern object identity of the
cache handles, not the graph, and the `PropMode.BACKWARD` branch only
precomputes backward sorts; neither affects the embedded state. -/
def TModel_init (g : Graph) (strategy : String) : Except String (List Nat) :=
  match (if strategy = "dfs" then topo_sort_forward_dfs g
         else if strategy = "bfs" then topo_sort_forward_bfs g
         else .error unknownStrategyMsg) with
  | .error e => .error e
  | .ok sortedNodes =>
      let inputs := sortedNodes.filter (fun n => decide ((g.pre n).length = 0))
      let outputs := sortedNodes.filter (fun n => decide ((g.next n).length = 0))
      if inputs.length = 0 then .error tNoInputMsg
      else if 1 < inputs.length then .error tMultipleInputsMsg
      else if outputs.length = 0 then .error tNoOutputMsg
      else if 1 < outputs.length then .error tMultipleOutputsMsg
      else .ok sortedNodes

/-- `T2Model.__init__` assertion message: first sorted node must be the user's
output. -/
def t2AssertFirstMsg : String := "First node after reversal should be the user output."

/-- `T2Model.__init__` assertion message: last sorted node must be the user's
input. -/
def t2AssertLastMsg : String := "Last node after reversal should be the user input."

/-- `T2Model.__init__` (template2/_model.py): `reverse_dag` first (validating
and then mutating the caller's graph in place), then the chosen sorter on the
reversed graph (the `_t2` sorters are logically identical to the template
ones), then the two order assertions.  The second component is the state of
the caller's graph when the constructor returns or raises. -/
def T2Model_init (g : Graph) (strategy : String) :
    Except String (Nat × Nat × List Nat) × Graph :=
  match reverse_dag g with
  | (.error e, g1) => (.error e, g1)
  | (.ok (ui, uo), g2) =>
      match (if strategy = "dfs" then topo_sort_forward_dfs g2
             else if strategy = "bfs" then topo_sort_forward_bfs g2
             else .error unknownStrategyMsg) with
      | .error e => (.error e, g2)
      | .ok sortedNodes =>
          if sortedNodes.head? = some uo then
            if sortedNodes.getLast? = some ui then (.ok (ui, uo, sortedNodes), g2)
            else (.error t2AssertLastMsg, g2)
          else (.error t2AssertFirstMsg, g2)

/-- Key sets of the toy cache (`ToyCache`): which node ids currently have a
`bnds` (scalar-bounds) entry and a `symbnds` (symbolic-bounds) entry.  The
stored values are never interpreted by the scheduler, so only the keys are embedded. -/
structure RunCache where
  bnds : List Nat
  symbnds : List Nat
deriving DecidableEq

/-- Scheduler state during `TModel.run`: the shared cache, the
`cache_counter` dict, and a log of the `clear_fwd_cache()` callback
invocations (one entry per invocation, in order). -/
structure RunSt where
  cache : RunCache
  counter : List (Nat × Int)
  evictLog : List Nat
deriving DecidableEq

/-- Dict lookup for the reference-count table. -/
def ctrGet : List (Nat × Int) → Nat → Option Int
  | [], _ => none
  | (k2, v) :: rest, k => if k = k2 then some v else ctrGet rest k

/-- Dict update (existing key) for the reference-count table. -/
def ctrSet (c : List (Nat × Int)) (k : Nat) (v : Int) : List (Nat × Int) :=
  c.map (fun p => if p.1 = k then (k, v) else p)

/-- Dict deletion for the reference-count table. -/
def ctrDel (c : List (Nat × Int)) (k : Nat) : List (Nat × Int) :=
  c.filter (fun p => decide (p.1 ≠ k))

/-- Dict-style key insertion: a repeated assignment keeps the original key. -/
def keyInsert (l : List Nat) (k : Nat) : List Nat :=
  if k ∈ l then l else l ++ [k]

/-- Message of the `assert self.name in self.cache.bnds` in
`ForwardToyNode.forward` for input nodes. -/
def assertInputBndsMsg : String := "Input bounds not set"

/-- `ForwardToyNode.forward`: an input node only asserts that its bounds were
pre-seeded; any other node caches its symbolic bounds (`fwdprop_symbnd`) and
its scalar bounds (`cal_and_update_cur_node_bnd`).  Printing and the
`cur_node` pointer have no embedded effect. -/
def nodeForward (g : Graph) (n : Nat) (st : RunSt) : Except String RunSt :=
  if (g.pre n).length = 0 then
    if n ∈ st.cache.bnds then .ok st else .error assertInputBndsMsg
  else
    .ok { st with cache := { bnds := keyInsert st.cache.bnds n,
                             symbnds := keyInsert st.cache.symbnds n } }

/-- `ForwardToyNode.clear_fwd_cache` plus a log entry for the invocation:
delete the `bnds` entry only when the node has both successors and
predecessors (`del` raises KeyError when absent), and delete the `symbnds`
entry when present. -/
def nodeClearFwd (g : Graph) (n : Nat) (st : RunSt) : Except String RunSt :=
  let st1 : RunSt := { st with evictLog := st.evictLog ++ [n] }
  match (if 0 < (g.next n).length ∧ 0 < (g.pre n).length then
           (if n ∈ st1.cache.bnds then
              .ok { st1 with cache := { st1.cache with bnds := st1.cache.bnds.erase n } }
            else .error keyErrorMsg)
         else .ok st1 : Except String RunSt) with
  | .error e => .error e
  | .ok st2 =>
      if n ∈ st2.cache.symbnds then
        .ok { st2 with cache := { st2.cache with symbnds := st2.cache.symbnds.erase n } }
      else .ok st2

/-- The loop body of `clear_fwd_cache` (template/_model.py) over the already
deduplicated node list: `cache_counter[node] -= 1` (KeyError when the key is
missing), and at a count of zero or below run the node's eviction callback and
delete the key. -/
def clearFwdLoop (g : Graph) : List Nat → RunSt → Except String RunSt
  | [], st => .ok st
  | n :: ns, st =>
      match ctrGet st.counter n with
      | none => .error keyErrorMsg
      | some c =>
          if c - 1 ≤ 0 then
            match nodeClearFwd g n { st with counter := ctrSet st.counter n (c - 1) } with
            | .error e => .error e
            | .ok st2 => clearFwdLoop g ns { st2 with counter := ctrDel st2.counter n }
          else clearFwdLoop g ns { st with counter := ctrSet st.counter n (c - 1) }

/-- `clear_fwd_cache(cache_counter, nodes)`: iterate over `set(nodes)`.  The
iteration order of a Python set is unspecified; the operations act on distinct
dict keys and distinct cache entries, so any order yields the same state, and
the embedding fixes the deduplicated list order. -/
def clear_fwd_cache (g : Graph) (ns : List Nat) (st : RunSt) : Except String RunSt :=
  clearFwdLoop g ns.dedup st

/-- The `for i in range(1, len(self.nodes))` loop of `TModel.run` in
`PropMode.FORWARD` (no back-substitution sub-pass): `forward()` the node, then
run forward eviction on the node's predecessors when cache clearing is on. -/
def runLoop (g : Graph) (clearCache : Bool) : List Nat → RunSt → Except String RunSt
  | [], st => .ok st
  | n :: ns, st =>
      match nodeForward g n st with
      | .error e => .error e
      | .ok st1 =>
          if clearCache then
            match clear_fwd_cache g (g.pre n) st1 with
            | .error e => .error e
            | .ok st2 => runLoop g clearCache ns st2
          else runLoop g clearCache ns st1

/-- Message standing for the `IndexError` of `self.nodes[0]` on an empty model. -/
def indexErrorMsg : String := "IndexError"

/-- `TModel.run` in `PropMode.FORWARD`: seed `cache_counter` with every sorted
node's raw successor count, `forward()` the first node (no eviction after it),
run the main loop over the remaining nodes, and finally run forward eviction
on the last processed node (the Python loop variable, which is the last list
element, or the first node when the list is a singleton).  The counter is
keyed by the sorted nodes, which an accepted model lists without repetition. -/
def TModel_run (g : Graph) (order : List Nat) (clearCache : Bool)
    (cache0 : RunCache) : Except String RunSt :=
  match order with
  | [] => .error indexErrorMsg
  | n0 :: rest =>
      let st0 : RunSt := ⟨cache0, order.map (fun n => (n, ((g.next n).length : Int))), []⟩
      match nodeForward g n0 st0 with
      | .error e => .error e
      | .ok st1 =>
          match runLoop g clearCache rest st1 with
          | .error e => .error e
          | .ok st2 =>
              if clearCache then
                clear_fwd_cache g [(n0 :: rest).getLast (List.cons_ne_nil n0 rest)] st2
              else .ok st2

/-- Chain `0 → 1`. -/
def chain2 : Graph :=
  ⟨[0, 1],
   fun n => match n with | 1 => [0] | _ => [],
   fun n => match n with | 0 => [1] | _ => []⟩

/-- Chain `0 → 1 → 2`. -/
def chain3 : Graph :=
  ⟨[0, 1, 2],
   fun n => match n with | 1 => [0] | 2 => [1] | _ => [],
   fun n => match n with | 0 => [1] | 1 => [2] | _ => []⟩

/-- Pure two-node cycle `0 → 1 → 0`: no node has zero in-degree. -/
def twoCycle : Graph :=
  ⟨[0, 1],
   fun n => match n with | 0 => [1] | 1 => [0] | _ => [],
   fun n => match n with | 0 => [1] | 1 => [0] | _ => []⟩

/-- Diamond `0 → 1, 0 → 2, 1 → 3, 2 → 3` (A, B, C, D). -/
def diamond : Graph :=
  ⟨[0, 1, 2, 3],
   fun n => match n with | 1 => [0] | 2 => [0] | 3 => [1, 2] | _ => [],
   fun n => match n with | 0 => [1, 2] | 1 => [3] | 2 => [3] | _ => []⟩

/-- `0 ⇒ 1 → 2`: the edge `0 → 1` is listed twice in node 1's predecessor
list and node 1 twice in node 0's successor list (the `x * x` shape). -/
def dupChain : Graph :=
  ⟨[0, 1, 2],
   fun n => match n with | 1 => [0, 0] | 2 => [1] | _ => [],
   fun n => match n with | 0 => [1, 1] | 1 => [2] | _ => []⟩

/-- Single source 0, single sink 4, one duplicated edge `1 ⇒ 4`, and a longer
branch `0 → 2 → 3 → 4`: edges 0→1, 0→2, 1⇒4 (twice), 2→3, 3→4.  Mirror
consistent (each duplicate appears in both adjacency lists). -/
def dupSkew : Graph :=
  ⟨[0, 1, 2, 3, 4],
   fun n => match n with | 1 => [0] | 2 => [0] | 3 => [2] | 4 => [1, 1, 3] | _ => [],
   fun n => match n with | 0 => [1, 2] | 1 => [4, 4] | 2 => [3] | 3 => [4] | _ => []⟩

/-- `0 → 1 ⇒ 2 → 3` with the interior edge `1 → 2` duplicated: node 1 is an
interior node (it has both predecessors and successors). -/
def dupInterior : Graph :=
  ⟨[0, 1, 2, 3],
   fun n => match n with | 1 => [0] | 2 => [1, 1] | 3 => [2] | _ => [],
   fun n => match n with | 0 => [1] | 1 => [2, 2] | 2 => [3] | _ => []⟩

example : topo_sort_forward_bfs dupSkew = .ok [0, 1, 2, 4, 3] := by decide
example : TModel_init dupSkew "bfs" = .ok [0, 1, 2, 4, 3] := by decide
example : topo_sort_forward_dfs dupSkew = .ok [0, 2, 3, 1, 4] := by decide
example : topo_sort_backward diamond 3 = [3, 2, 1, 0] := by decide
example : TModel_run dupInterior [0, 1, 2, 3] true ⟨[0], []⟩ =
    .ok ⟨⟨[0, 1, 3], [1]⟩, [(1, 1)], [0, 2, 3]⟩ := by decide
example : TModel_run dupChain [0, 1, 2] true ⟨[0], []⟩ =
    .ok ⟨⟨[0, 2], []⟩, [(0, 1)], [1, 2]⟩ := by decide
example : TModel_init twoCycle "bfs" = .error cycleMsg := by decide
example : TModel_init twoCycle "dfs" = .error cycleMsg := by decide
example : (T2Model_init chain2 "xxx").1 = .error unknownStrategyMsg := by decide
example : (T2Model_init chain2 "xxx").2.pre 0 = [1] := by decide
example : (reverse_dag twoCycle).1 = .error noInputMsg := by decide

/-- Number of dict keys whose in-degree is still positive: together with the
queue length this strictly decreases at every `while` iteration of the BFS. -/
def cntPos (deg : Nat → Int) (keys : List Nat) : Nat :=
  (keys.filter (fun n => decide (0 < deg n))).length

/-- Unfolding `cntPos` over a cons cell. -/
theorem cntPos_cons (deg : Nat → Int) (k : Nat) (ks : List Nat) :
    cntPos deg (k :: ks) = (if 0 < deg k then 1 else 0) + cntPos deg ks := by
  unfold cntPos
  by_cases h : 0 < deg k
  · simp [List.filter_cons, h]
    omega
  · simp [List.filter_cons, h]

/-- `cntPos` only depends on the degree values at the keys. -/
theorem cntPos_congr {deg deg2 : Nat → Int} (keys : List Nat)
    (h : ∀ x ∈ keys, deg x = deg2 x) : cntPos deg keys = cntPos deg2 keys := by
  unfold cntPos
  rw [List.filter_congr (fun x hx => by rw [h x hx])]

/-- Decrementing key `m` lowers the positive-degree count exactly when the
degree moves from one to zero. -/
theorem cntPos_decKey (deg : Nat → Int) (keys : List Nat) (m : Nat)
    (hnd : keys.Nodup) (hm : m ∈ keys) :
    cntPos deg keys = cntPos (decKey deg m) keys + (if deg m = 1 then 1 else 0) := by
  induction keys with
  | nil => simp at hm
  | cons k ks ih =>
      obtain ⟨hk, hnd2⟩ := List.nodup_cons.mp hnd
      rcases List.mem_cons.mp hm with hmk | hmk
      · subst hmk
        have hks : cntPos deg ks = cntPos (decKey deg m) ks := by
          apply cntPos_congr
          intro x hx
          have hxm : x ≠ m := fun hxm => hk (hxm ▸ hx)
          simp [decKey, hxm]
        have hdk : decKey deg m m = deg m - 1 := by simp [decKey]
        rw [cntPos_cons, cntPos_cons, hks, hdk]
        by_cases h1 : deg m = 1
        · rw [if_pos h1, if_pos (by omega : (0:Int) < deg m),
            if_neg (by omega : ¬ (0:Int) < deg m - 1)]
          omega
        · rw [if_neg h1]
          by_cases hp : (0:Int) < deg m
          · rw [if_pos hp, if_pos (by omega : (0:Int) < deg m - 1)]
            omega
          · rw [if_neg hp, if_neg (by omega : ¬ (0:Int) < deg m - 1)]
            omega
      · have hkm : k ≠ m := fun hkm2 => hk (hkm2 ▸ hmk)
        have hdk : decKey deg m k = deg k := by simp [decKey, hkm]
        rw [cntPos_cons, cntPos_cons, hdk, ih hnd2 hmk]
        omega

/-- Inner-loop accounting: decrementing the successors of the popped node
keeps `cntPos` plus the queue length constant, never fails when all successors
are dict keys, and only enqueues successors. -/
theorem processNexts_ok (keys : List Nat) (hnd : keys.Nodup) :
    ∀ (ns : List Nat) (deg : Nat → Int) (queue : List Nat),
      (∀ x ∈ ns, x ∈ keys) →
      ∃ deg2 queue2,
        processNexts keys ns deg queue = .ok (deg2, queue2) ∧
        cntPos deg2 keys + queue2.length = cntPos deg keys + queue.length ∧
        ∀ x ∈ queue2, x ∈ queue ∨ x ∈ ns := by
  intro ns
  induction ns with
  | nil =>
      intro deg queue _
      exact ⟨deg, queue, rfl, rfl, fun x hx => Or.inl hx⟩
  | cons m ms ih =>
      intro deg queue hns
      have hm : m ∈ keys := hns m (List.mem_cons_self m ms)
      have hrest : ∀ x ∈ ms, x ∈ keys := fun x hx => hns x (List.mem_cons_of_mem m hx)
      have hstep : processNexts keys (m :: ms) deg queue =
          processNexts keys ms (decKey deg m)
            (if decKey deg m m = 0 then queue ++ [m] else queue) := by
        simp [processNexts, hm]
      have hdec := cntPos_decKey deg keys m hnd hm
      have hself : decKey deg m m = deg m - 1 := by simp [decKey]
      by_cases h0 : decKey deg m m = 0
      · obtain ⟨deg2, queue2, hrun, hcnt, hmem⟩ := ih (decKey deg m) (queue ++ [m]) hrest
        refine ⟨deg2, queue2, ?_, ?_, ?_⟩
        · rw [hstep, if_pos h0, hrun]
        · rw [hcnt]
          have h1 : deg m = 1 := by omega
          rw [hdec, if_pos h1]
          simp only [List.length_append, List.length_cons, List.length_nil]
          omega
        · intro x hx
          rcases hmem x hx with hq | hms
          · rcases List.mem_append.mp hq with hq2 | hq2
            · exact Or.inl hq2
            · simp only [List.mem_singleton] at hq2
              exact Or.inr (hq2 ▸ List.mem_cons_self m ms)
          · exact Or.inr (List.mem_cons_of_mem m hms)
      · obtain ⟨deg2, queue2, hrun, hcnt, hmem⟩ := ih (decKey deg m) queue hrest
        refine ⟨deg2, queue2, ?_, ?_, ?_⟩
        · rw [hstep, if_neg h0, hrun]
        · rw [hcnt]
          have h1 : ¬ deg m = 1 := by omega
          rw [hdec, if_neg h1]
          omega
        · intro x hx
          rcases hmem x hx with hq | hms
          · exact Or.inl hq
          · exact Or.inr (List.mem_cons_of_mem m hms)

/-- The BFS `while` loop terminates with a list (never a `KeyError` and never
out of fuel) whenever the graph is closed, the queue holds listed nodes, and
the fuel exceeds `cntPos` plus the queue length. -/
theorem bfsLoop_ok (g : Graph) (hcl : Closed g) :
    ∀ (fuel : Nat) (deg : Nat → Int) (queue sortedNodes : List Nat),
      (∀ x ∈ queue, x ∈ g.nodes) →
      cntPos deg g.nodes.dedup + queue.length + 1 ≤ fuel →
      ∃ s, bfsLoop g g.nodes.dedup fuel deg queue sortedNodes = .ok s := by
  intro fuel
  induction fuel with
  | zero =>
      intro deg queue sortedNodes _ hle
      omega
  | succ fuel ih =>
      intro deg queue sortedNodes hq hle
      cases queue with
      | nil => exact ⟨sortedNodes, rfl⟩
      | cons q rest =>
          have hqn : q ∈ g.nodes := hq q (List.mem_cons_self q rest)
          have hnext : ∀ x ∈ g.next q, x ∈ g.nodes.dedup := by
            intro x hx
            exact List.mem_dedup.mpr ((hcl q hqn).2 x hx)
          obtain ⟨deg2, queue2, hrun, hcnt, hmem⟩ :=
            processNexts_ok g.nodes.dedup g.nodes.nodup_dedup (g.next q) deg rest hnext
          have hstep : bfsLoop g g.nodes.dedup (fuel + 1) deg (q :: rest) sortedNodes =
              bfsLoop g g.nodes.dedup fuel deg2 queue2 (sortedNodes ++ [q]) := by
            simp [bfsLoop, hrun]
          rw [hstep]
          apply ih
          · intro x hx
            rcases hmem x hx with hx2 | hx2
            · exact hq x (List.mem_cons_of_mem q hx2)
            · exact (hcl q hqn).2 x hx2
          · simp only [List.length_cons] at hle
            omega

/-- Claim support: on a closed graph `topo_sort_forward_bfs` either returns a
list of exactly the input length or fails with the cycle error. -/
theorem topo_bfs_total (g : Graph) (hcl : Closed g) :
    (∃ l, topo_sort_forward_bfs g = .ok l ∧ l.length = g.nodes.length) ∨
      topo_sort_forward_bfs g = .error cycleMsg := by
  have hq : ∀ x ∈ g.nodes.filter
      (fun n => decide ((((g.pre n).dedup.length : Nat) : Int) = 0)), x ∈ g.nodes :=
    fun x hx => (List.mem_filter.mp hx).1
  have hcnt : cntPos (fun n => (((g.pre n).dedup.length : Nat) : Int)) g.nodes.dedup ≤
      g.nodes.length := by
    unfold cntPos
    calc (g.nodes.dedup.filter _).length ≤ g.nodes.dedup.length :=
          List.length_filter_le _ _
      _ ≤ g.nodes.length := g.nodes.dedup_sublist.length_le
  have hql : (g.nodes.filter
      (fun n => decide ((((g.pre n).dedup.length : Nat) : Int) = 0))).length ≤
      g.nodes.length := List.length_filter_le _ _
  obtain ⟨s, hs⟩ := bfsLoop_ok g hcl (2 * g.nodes.length + 1)
    (fun n => (((g.pre n).dedup.length : Nat) : Int))
    (g.nodes.filter (fun n => decide ((((g.pre n).dedup.length : Nat) : Int) = 0)))
    [] hq (by omega)
  simp only [topo_sort_forward_bfs]
  rw [hs]
  by_cases hlen : s.length = g.nodes.length
  · left
    exact ⟨s, by simp [hlen], hlen⟩
  · right
    simp [hlen]

/-- A node is marked in a DFS state when it is visited or on the cycle-guard
stack; the set of marked nodes only grows along the traversal. -/
def markedIn (st : DfsSt) (n : Nat) : Prop := n ∈ st.visited ∨ n ∈ st.tempMark

/-- Number of keys not yet marked: the per-descent measure of the DFS. -/
def unmarked (keys : List Nat) (st : DfsSt) : Nat :=
  (keys.filter (fun n => decide (n ∉ st.visited ∧ n ∉ st.tempMark))).length

/-- Filtering with a stronger predicate yields at most as many elements. -/
theorem length_filter_mono {α : Type} (l : List α) (p q : α → Bool)
    (h : ∀ a ∈ l, p a = true → q a = true) :
    (l.filter p).length ≤ (l.filter q).length := by
  induction l with
  | nil => simp
  | cons a as ih =>
      have hrest := ih (fun x hx => h x (List.mem_cons_of_mem a hx))
      cases hpa : p a with
      | false =>
          cases hqa : q a with
          | false => simpa [List.filter_cons, hpa, hqa] using hrest
          | true =>
              simp only [List.filter_cons, hpa, hqa, if_true, if_false,
                Bool.false_eq_true, List.length_cons]
              omega
      | true =>
          have hqa : q a = true := h a (List.mem_cons_self a as) hpa
          simp only [List.filter_cons, hpa, hqa, if_true, List.length_cons]
          omega

/-- Growing the marked set cannot increase the unmarked count. -/
theorem unmarked_mono (keys : List Nat) (st st2 : DfsSt)
    (h : ∀ n, markedIn st n → markedIn st2 n) :
    unmarked keys st2 ≤ unmarked keys st := by
  apply length_filter_mono
  intro a _ ha
  rw [decide_eq_true_eq] at ha ⊢
  constructor
  · intro hv
    rcases h a (Or.inl hv) with h2 | h2
    · exact ha.1 h2
    · exact ha.2 h2
  · intro ht
    rcases h a (Or.inr ht) with h2 | h2
    · exact ha.1 h2
    · exact ha.2 h2

/-- Removing one satisfying key from a duplicate-free list drops the filter
count by exactly one. -/
theorem length_filter_drop_key (keys : List Nat) (hnd : keys.Nodup)
    (p : Nat → Bool) (node : Nat) (hm : node ∈ keys) (hp : p node = true) :
    (keys.filter p).length =
      (keys.filter (fun x => p x && decide (x ≠ node))).length + 1 := by
  induction keys with
  | nil => simp at hm
  | cons k ks ih =>
      obtain ⟨hk, hnd2⟩ := List.nodup_cons.mp hnd
      rcases List.mem_cons.mp hm with hkn | hkn
      · subst hkn
        have htail : ks.filter (fun x => p x && decide (x ≠ node)) = ks.filter p := by
          apply List.filter_congr
          intro x hx
          have hxn : x ≠ node := fun hxe => hk (hxe ▸ hx)
          simp [hxn]
        have hhd : List.filter (fun x => p x && decide (x ≠ node)) (node :: ks) =
            List.filter (fun x => p x && decide (x ≠ node)) ks :=
          List.filter_cons_of_neg (by simp)
        rw [List.filter_cons_of_pos hp, hhd, htail, List.length_cons]
      · have hkn2 : k ≠ node := fun hke => hk (hke ▸ hkn)
        have hih := ih hnd2 hkn
        cases hpk : p k with
        | false =>
            have hhd : List.filter (fun x => p x && decide (x ≠ node)) (k :: ks) =
                List.filter (fun x => p x && decide (x ≠ node)) ks :=
              List.filter_cons_of_neg (by simp [hpk])
            rw [List.filter_cons_of_neg (by simp [hpk] : ¬(p k = true)), hhd]
            exact hih
        | true =>
            have hpk2 : (p k && decide (k ≠ node)) = true := by
              rw [hpk, Bool.true_and, decide_eq_true_eq]
              exact hkn2
            have hhd : List.filter (fun x => p x && decide (x ≠ node)) (k :: ks) =
                k :: List.filter (fun x => p x && decide (x ≠ node)) ks :=
              List.filter_cons_of_pos hpk2
            rw [List.filter_cons_of_pos hpk, hhd, List.length_cons, List.length_cons, hih]

/-- Pushing an unmarked key onto the cycle-guard stack lowers the unmarked
count by one. -/
theorem unmarked_temp_insert (keys : List Nat) (hnd : keys.Nodup)
    (st : DfsSt) (node : Nat) (hm : node ∈ keys)
    (hv : node ∉ st.visited) (ht : node ∉ st.tempMark) :
    unmarked keys st =
      unmarked keys { st with tempMark := node :: st.tempMark } + 1 := by
  unfold unmarked
  have hpred : ∀ x : Nat,
      (decide (x ∉ st.visited ∧ x ∉ node :: st.tempMark)) =
        ((decide (x ∉ st.visited ∧ x ∉ st.tempMark)) && decide (x ≠ node)) := by
    intro x
    by_cases h1 : x ∈ st.visited
    · simp [h1]
    · by_cases h2 : x ∈ st.tempMark
      · simp [h1, h2, List.mem_cons]
      · by_cases h3 : x = node
        · simp [h1, h2, h3, List.mem_cons]
        · simp [h1, h2, h3, List.mem_cons]
  have hrw : keys.filter
        (fun x => decide (x ∉ { st with tempMark := node :: st.tempMark }.visited ∧
          x ∉ { st with tempMark := node :: st.tempMark }.tempMark)) =
      keys.filter (fun x =>
        (decide (x ∉ st.visited ∧ x ∉ st.tempMark)) && decide (x ≠ node)) := by
    exact List.filter_congr (fun x _ => hpred x)
  rw [hrw]
  exact length_filter_drop_key keys hnd _ node hm (by simp [hv, ht])

/-- Auxiliary bound: a member's successor-list length is at most the folded
maximum. -/
theorem foldr_max_next_le (g : Graph) :
    ∀ (l : List Nat) (n : Nat), n ∈ l →
      (g.next n).length ≤ l.foldr (fun m acc => max (g.next m).length acc) 0 := by
  intro l
  induction l with
  | nil =>
      intro n hn
      simp at hn
  | cons k ks ih =>
      intro n hn
      rcases List.mem_cons.mp hn with hk | hk
      · subst hk
        exact le_max_left _ _
      · exact le_trans (ih n hk) (le_max_right _ _)

/-- Every listed node's successor list is bounded by `maxNext`. -/
theorem length_next_le_maxNext (g : Graph) (n : Nat) (hn : n ∈ g.nodes) :
    (g.next n).length ≤ maxNext g :=
  foldr_max_next_le g g.nodes n hn

/-- The DFS worklist either detects a cycle or completes with a grown marked
set, and never exhausts its fuel, provided the fuel dominates the measure
`unmarked * (maxNext + 1) + worklist length`. -/
theorem dfsList_spec (g : Graph) (hcl : Closed g) :
    ∀ (fuel : Nat) (ns : List Nat) (st : DfsSt),
      (∀ x ∈ ns, x ∈ g.nodes) →
      unmarked g.nodes.dedup st * (maxNext g + 1) + ns.length + 1 ≤ fuel →
      dfsList g fuel ns st = .error cycleMsg ∨
        ∃ st2, dfsList g fuel ns st = .ok st2 ∧
          (∀ n, markedIn st n → markedIn st2 n) := by
  intro fuel
  induction fuel with
  | zero =>
      intro ns st _ hle
      omega
  | succ fuel ih =>
      intro ns st hns hle
      cases ns with
      | nil =>
          right
          exact ⟨st, rfl, fun n h => h⟩
      | cons node ns2 =>
          by_cases htm : node ∈ st.tempMark
          · left
            simp [dfsList, htm]
          · by_cases hvis : node ∈ st.visited
            · have hstep : dfsList g (fuel + 1) (node :: ns2) st = dfsList g fuel ns2 st := by
                simp [dfsList, htm, hvis]
              rw [hstep]
              apply ih
              · exact fun x hx => hns x (List.mem_cons_of_mem node hx)
              · simp only [List.length_cons] at hle
                omega
            · have hnode : node ∈ g.nodes := hns node (List.mem_cons_self node ns2)
              have hkey : node ∈ g.nodes.dedup := List.mem_dedup.mpr hnode
              have hdec := unmarked_temp_insert g.nodes.dedup g.nodes.nodup_dedup
                st node hkey hvis htm
              have hnext_le : (g.next node).length ≤ maxNext g :=
                length_next_le_maxNext g node hnode
              have hmul : (unmarked g.nodes.dedup
                    { st with tempMark := node :: st.tempMark } + 1) * (maxNext g + 1) =
                  unmarked g.nodes.dedup { st with tempMark := node :: st.tempMark } *
                    (maxNext g + 1) + (maxNext g + 1) := by
                ring
              have hle1 : unmarked g.nodes.dedup
                    { st with tempMark := node :: st.tempMark } * (maxNext g + 1) +
                    (g.next node).length + 1 ≤ fuel := by
                rw [hdec] at hle
                rw [hmul] at hle
                simp only [List.length_cons] at hle
                omega
              have hmemnext : ∀ x ∈ g.next node, x ∈ g.nodes :=
                fun x hx => (hcl node hnode).2 x hx
              rcases ih (g.next node) { st with tempMark := node :: st.tempMark }
                  hmemnext hle1 with herr | ⟨st2, hok, hmono2⟩
              · left
                simp [dfsList, htm, hvis, herr]
              · have hstep : dfsList g (fuel + 1) (node :: ns2) st =
                    dfsList g fuel ns2
                      { visited := node :: st2.visited,
                        tempMark := st2.tempMark.erase node,
                        postOrder := st2.postOrder ++ [node] } := by
                  simp [dfsList, htm, hvis, hok]
                have hm13 : ∀ n, markedIn { st with tempMark := node :: st.tempMark } n →
                    markedIn ⟨node :: st2.visited, st2.tempMark.erase node,
                      st2.postOrder ++ [node]⟩ n := by
                  intro n hn
                  rcases hmono2 n hn with hv2 | ht2
                  · exact Or.inl (List.mem_cons_of_mem node hv2)
                  · by_cases hne : n = node
                    · exact Or.inl (hne ▸ List.mem_cons_self node st2.visited)
                    · exact Or.inr ((List.mem_erase_of_ne hne).mpr ht2)
                have hunm3 : unmarked g.nodes.dedup
                      ⟨node :: st2.visited, st2.tempMark.erase node,
                        st2.postOrder ++ [node]⟩ ≤
                    unmarked g.nodes.dedup { st with tempMark := node :: st.tempMark } :=
                  unmarked_mono _ _ _ hm13
                have hle3 : unmarked g.nodes.dedup
                      ⟨node :: st2.visited, st2.tempMark.erase node,
                        st2.postOrder ++ [node]⟩ * (maxNext g + 1) + ns2.length + 1 ≤ fuel := by
                  have hmu : unmarked g.nodes.dedup
                        ⟨node :: st2.visited, st2.tempMark.erase node,
                          st2.postOrder ++ [node]⟩ * (maxNext g + 1) ≤
                      unmarked g.nodes.dedup { st with tempMark := node :: st.tempMark } *
                        (maxNext g + 1) :=
                    Nat.mul_le_mul_right _ hunm3
                  rw [hdec, hmul] at hle
                  simp only [List.length_cons] at hle
                  omega
                rcases ih ns2 ⟨node :: st2.visited, st2.tempMark.erase node,
                    st2.postOrder ++ [node]⟩
                    (fun x hx => hns x (List.mem_cons_of_mem node hx)) hle3 with
                  herr2 | ⟨st4, hok4, hmono4⟩
                · left
                  rw [hstep]
                  exact herr2
                · right
                  refine ⟨st4, by rw [hstep]; exact hok4, ?_⟩
                  intro n hn
                  apply hmono4
                  apply hm13
                  rcases hn with hv2 | ht2
                  · exact Or.inl hv2
                  · exact Or.inr (List.mem_cons_of_mem node ht2)

/-- Claim support: on a closed graph `topo_sort_forward_dfs` either returns a
list of exactly the input length or fails with the cycle error. -/
theorem topo_dfs_total (g : Graph) (hcl : Closed g) :
    (∃ l, topo_sort_forward_dfs g = .ok l ∧ l.length = g.nodes.length) ∨
      topo_sort_forward_dfs g = .error cycleMsg := by
  have hmem : ∀ x ∈ g.nodes.filter (fun n => decide ((g.pre n).length = 0)),
      x ∈ g.nodes := fun x hx => (List.mem_filter.mp hx).1
  have hu0 : unmarked g.nodes.dedup ⟨[], [], []⟩ ≤ g.nodes.length := by
    unfold unmarked
    calc (g.nodes.dedup.filter _).length ≤ g.nodes.dedup.length :=
          List.length_filter_le _ _
      _ ≤ g.nodes.length := g.nodes.dedup_sublist.length_le
  have hr0 : (g.nodes.filter (fun n => decide ((g.pre n).length = 0))).length ≤
      g.nodes.length := List.length_filter_le _ _
  have hle : unmarked g.nodes.dedup ⟨[], [], []⟩ * (maxNext g + 1) +
      (g.nodes.filter (fun n => decide ((g.pre n).length = 0))).length + 1 ≤ dfsFuel g := by
    unfold dfsFuel
    have := Nat.mul_le_mul_right (maxNext g + 1) hu0
    omega
  rcases dfsList_spec g hcl (dfsFuel g)
      (g.nodes.filter (fun n => decide ((g.pre n).length = 0))) ⟨[], [], []⟩ hmem hle with
    herr | ⟨st2, hok, _⟩
  · right
    simp only [topo_sort_forward_dfs]
    rw [herr]
  · simp only [topo_sort_forward_dfs]
    rw [hok]
    by_cases hlen : st2.postOrder.length = g.nodes.length
    · left
      exact ⟨st2.postOrder.reverse, by simp [hlen], by simp [hlen]⟩
    · right
      simp [hlen]

/-- An empty queue ends the BFS loop at any fuel. -/
theorem bfsLoop_nil (g : Graph) (keys : List Nat) (fuel : Nat) (deg : Nat → Int)
    (sortedNodes : List Nat) : bfsLoop g keys fuel deg [] sortedNodes = .ok sortedNodes := by
  cases fuel <;> rfl

/-- An empty worklist ends the DFS at any fuel. -/
theorem dfsList_nil (g : Graph) (fuel : Nat) (st : DfsSt) :
    dfsList g fuel [] st = .ok st := by
  cases fuel <;> rfl

/-- On a graph in which every node has a predecessor, the BFS seed queue is
empty and the sorter reports the cycle error (the length check fails). -/
theorem topo_bfs_pure_cycle (g : Graph) (hne : g.nodes ≠ [])
    (hc : ∀ n ∈ g.nodes, g.pre n ≠ []) :
    topo_sort_forward_bfs g = .error cycleMsg := by
  have hfil : g.nodes.filter
      (fun n => decide ((((g.pre n).dedup.length : Nat) : Int) = 0)) = [] := by
    rw [List.filter_eq_nil_iff]
    intro n hn
    simp only [decide_eq_true_eq]
    intro h0
    have h1 : (g.pre n).dedup.length = 0 := by exact_mod_cast h0
    exact hc n hn ((List.dedup_eq_nil _).mp (List.eq_nil_of_length_eq_zero h1))
  have hlen : g.nodes.length ≠ 0 := fun h => hne (List.eq_nil_of_length_eq_zero h)
  simp only [topo_sort_forward_bfs]
  rw [hfil, bfsLoop_nil]
  simp only [List.length_nil]
  rw [if_neg (fun h => hlen h.symm)]

/-- On a graph in which every node has a predecessor, the DFS root loop never
fires and the sorter reports the cycle error. -/
theorem topo_dfs_pure_cycle (g : Graph) (hne : g.nodes ≠ [])
    (hc : ∀ n ∈ g.nodes, g.pre n ≠ []) :
    topo_sort_forward_dfs g = .error cycleMsg := by
  have hfil : g.nodes.filter (fun n => decide ((g.pre n).length = 0)) = [] := by
    rw [List.filter_eq_nil_iff]
    intro n hn
    simp only [decide_eq_true_eq]
    intro h0
    exact hc n hn (List.eq_nil_of_length_eq_zero h0)
  have hlen : g.nodes.length ≠ 0 := fun h => hne (List.eq_nil_of_length_eq_zero h)
  simp only [topo_sort_forward_dfs]
  rw [hfil, dfsList_nil]
  simp only [List.length_nil]
  rw [if_neg (fun h => hlen h.symm)]

/-- On a graph in which every node has a predecessor, `reverse_dag` fails with
the `NoInput` error and leaves the graph untouched. -/
theorem reverse_dag_no_input (g : Graph) (hc : ∀ n ∈ g.nodes, g.pre n ≠ []) :
    reverse_dag g = (.error noInputMsg, g) := by
  have hfil : g.nodes.filter (fun n => decide ((g.pre n).length = 0)) = [] := by
    rw [List.filter_eq_nil_iff]
    intro n hn
    simp only [decide_eq_true_eq]
    intro h0
    exact hc n hn (List.eq_nil_of_length_eq_zero h0)
  simp only [reverse_dag]
  rw [hfil]

/-- Any failing `reverse_dag` call returns the caller's graph unchanged: the
validation precedes the edge swap in the source. -/
theorem reverse_dag_error_state (g : Graph) (e : String) (p : Graph)
    (h : reverse_dag g = (.error e, p)) : p = g := by
  unfold reverse_dag at h
  rcases hin : g.nodes.filter (fun n => decide ((g.pre n).length = 0)) with _ | ⟨i, ins⟩
  · rw [hin] at h
    injection h with h1 h2
    exact h2.symm
  · rcases ins with _ | ⟨i2, ins2⟩
    · rcases hout : g.nodes.filter (fun n => decide ((g.next n).length = 0)) with
        _ | ⟨o, outs⟩
      · rw [hin, hout] at h
        injection h with h1 h2
        exact h2.symm
      · rcases outs with _ | ⟨o2, outs2⟩
        · rw [hin, hout] at h
          injection h with h1 h2
          exact absurd h1 (by simp)
        · rw [hin, hout] at h
          injection h with h1 h2
          exact h2.symm
    · rw [hin] at h
      injection h with h1 h2
      exact h2.symm

/-- Any successful `reverse_dag` call returns the edge-swapped graph. -/
theorem reverse_dag_ok_state (g : Graph) (pr : Nat × Nat) (p : Graph)
    (h : reverse_dag g = (.ok pr, p)) : p = swapEdges g := by
  unfold reverse_dag at h
  rcases hin : g.nodes.filter (fun n => decide ((g.pre n).length = 0)) with _ | ⟨i, ins⟩
  · rw [hin] at h
    injection h with h1 h2
    exact absurd h1 (by simp)
  · rcases ins with _ | ⟨i2, ins2⟩
    · rcases hout : g.nodes.filter (fun n => decide ((g.next n).length = 0)) with
        _ | ⟨o, outs⟩
      · rw [hin, hout] at h
        injection h with h1 h2
        exact absurd h1 (by simp)
      · rcases outs with _ | ⟨o2, outs2⟩
        · rw [hin, hout] at h
          injection h with h1 h2
          exact h2.symm
        · rw [hin, hout] at h
          injection h with h1 h2
          exact absurd h1 (by simp)
    · rw [hin] at h
      injection h with h1 h2
      exact absurd h1 (by simp)

/-- Swapping twice restores each node's predecessor list. -/
theorem swapEdges_swapEdges_pre (g : Graph) (n : Nat) :
    (swapEdges (swapEdges g)).pre n = g.pre n := by
  by_cases hn : n ∈ g.nodes <;> simp [swapEdges, hn]

/-- Swapping twice restores each node's successor list. -/
theorem swapEdges_swapEdges_next (g : Graph) (n : Nat) :
    (swapEdges (swapEdges g)).next n = g.next n := by
  by_cases hn : n ∈ g.nodes <;> simp [swapEdges, hn]

/-- On the swapped graph, the input filter computes the original output filter. -/
theorem swapEdges_filter_pre (g : Graph) :
    (swapEdges g).nodes.filter (fun n => decide (((swapEdges g).pre n).length = 0)) =
      g.nodes.filter (fun n => decide ((g.next n).length = 0)) := by
  apply List.filter_congr
  intro x hx
  have hx2 : x ∈ g.nodes := hx
  simp [swapEdges, hx2]

/-- On the swapped graph, the output filter computes the original input filter. -/
theorem swapEdges_filter_next (g : Graph) :
    (swapEdges g).nodes.filter (fun n => decide (((swapEdges g).next n).length = 0)) =
      g.nodes.filter (fun n => decide ((g.pre n).length = 0)) := by
  apply List.filter_congr
  intro x hx
  have hx2 : x ∈ g.nodes := hx
  simp [swapEdges, hx2]

/-- Claim C1 (code bug): the wide-first sorter is not topologically valid on
every accepted graph.  On `dupSkew` — accepted by `TModel.__init__` with the
bfs strategy — the returned order places node 4 before its predecessor 3,
because the in-degree dict is seeded with deduplicated predecessor counts but
decremented once per raw (duplicated) successor entry. -/
theorem claim_C1_bfs_duplicate_edge_violation :
    TModel_init dupSkew "bfs" = .ok [0, 1, 2, 4, 3] ∧
    3 ∈ dupSkew.pre 4 ∧
    [0, 1, 2, 4, 3].indexOf 4 < [0, 1, 2, 4, 3].indexOf 3 := by decide

/-- Claim C2: on any closed input node sequence, each sort strategy either
returns an order whose length equals the number of input nodes or fails with
the cycle error; it never returns a shorter or longer list. -/
theorem claim_C2_sort_length_or_cycle (g : Graph) (h : Closed g) :
    ((∃ l, topo_sort_forward_bfs g = .ok l ∧ l.length = g.nodes.length) ∨
      topo_sort_forward_bfs g = .error cycleMsg) ∧
    ((∃ l, topo_sort_forward_dfs g = .ok l ∧ l.length = g.nodes.length) ∨
      topo_sort_forward_dfs g = .error cycleMsg) :=
  ⟨topo_bfs_total g h, topo_dfs_total g h⟩

/-- Witness for claim C2 at the concrete chain `0 → 1 → 2`. -/
theorem claim_C2_sort_length_or_cycle_witness :
    Closed chain3 ∧
    (((∃ l, topo_sort_forward_bfs chain3 = .ok l ∧ l.length = chain3.nodes.length) ∨
        topo_sort_forward_bfs chain3 = .error cycleMsg) ∧
      ((∃ l, topo_sort_forward_dfs chain3 = .ok l ∧ l.length = chain3.nodes.length) ∨
        topo_sort_forward_dfs chain3 = .error cycleMsg)) :=
  ⟨by unfold Closed; decide, claim_C2_sort_length_or_cycle chain3 (by unfold Closed; decide)⟩

/-- Claim C3: on a valid graph (one source `s`, one sink `t`), `reverse_dag`
returns `(s, t)` and the swapped graph; applied again it returns `(t, s)` —
the source and sink of the graph it was given — and swapping twice restores
every node's predecessor and successor lists exactly. -/
theorem claim_C3_reverse_involution (g : Graph) (s t : Nat)
    (hs : g.nodes.filter (fun n => decide ((g.pre n).length = 0)) = [s])
    (ht : g.nodes.filter (fun n => decide ((g.next n).length = 0)) = [t]) :
    reverse_dag g = (.ok (s, t), swapEdges g) ∧
    reverse_dag (swapEdges g) = (.ok (t, s), swapEdges (swapEdges g)) ∧
    (∀ n, (swapEdges (swapEdges g)).pre n = g.pre n ∧
      (swapEdges (swapEdges g)).next n = g.next n) := by
  have h1 : reverse_dag g = (.ok (s, t), swapEdges g) := by
    unfold reverse_dag
    rw [hs, ht]
  have hs2 : (swapEdges g).nodes.filter
      (fun n => decide (((swapEdges g).pre n).length = 0)) = [t] := by
    rw [swapEdges_filter_pre]
    exact ht
  have ht2 : (swapEdges g).nodes.filter
      (fun n => decide (((swapEdges g).next n).length = 0)) = [s] := by
    rw [swapEdges_filter_next]
    exact hs
  have h2 : reverse_dag (swapEdges g) = (.ok (t, s), swapEdges (swapEdges g)) := by
    unfold reverse_dag
    rw [hs2, ht2]
  exact ⟨h1, h2, fun n => ⟨swapEdges_swapEdges_pre g n, swapEdges_swapEdges_next g n⟩⟩

/-- Witness for claim C3 at the concrete chain `0 → 1`. -/
theorem claim_C3_reverse_involution_witness :
    (chain2.nodes.filter (fun n => decide ((chain2.pre n).length = 0)) = [0]) ∧
    (chain2.nodes.filter (fun n => decide ((chain2.next n).length = 0)) = [1]) ∧
    (reverse_dag chain2 = (.ok (0, 1), swapEdges chain2) ∧
      reverse_dag (swapEdges chain2) = (.ok (1, 0), swapEdges (swapEdges chain2)) ∧
      (∀ n, (swapEdges (swapEdges chain2)).pre n = chain2.pre n ∧
        (swapEdges (swapEdges chain2)).next n = chain2.next n)) :=
  ⟨by decide, by decide, claim_C3_reverse_involution chain2 0 1 (by decide) (by decide)⟩

/-- Claim C4: after a successful reversal the old sink has no predecessors and
the old source has no successors, and a reversal that fails validation returns
the caller's graph with no node mutated. -/
theorem claim_C4_reverse_postconditions (g : Graph) (s t : Nat)
    (hs : g.nodes.filter (fun n => decide ((g.pre n).length = 0)) = [s])
    (ht : g.nodes.filter (fun n => decide ((g.next n).length = 0)) = [t]) :
    reverse_dag g = (.ok (s, t), swapEdges g) ∧
    (swapEdges g).pre t = [] ∧ (swapEdges g).next s = [] ∧
    (∀ g2 e p, reverse_dag g2 = (.error e, p) → p = g2) := by
  have h1 : reverse_dag g = (.ok (s, t), swapEdges g) := by
    unfold reverse_dag
    rw [hs, ht]
  have htf : t ∈ g.nodes.filter (fun n => decide ((g.next n).length = 0)) := by
    rw [ht]
    exact List.mem_singleton.mpr rfl
  have htm : t ∈ g.nodes := (List.mem_filter.mp htf).1
  have htnext : g.next t = [] := by
    have h2 := (List.mem_filter.mp htf).2
    rw [decide_eq_true_eq] at h2
    exact List.eq_nil_of_length_eq_zero h2
  have hsf : s ∈ g.nodes.filter (fun n => decide ((g.pre n).length = 0)) := by
    rw [hs]
    exact List.mem_singleton.mpr rfl
  have hsm : s ∈ g.nodes := (List.mem_filter.mp hsf).1
  have hspre : g.pre s = [] := by
    have h2 := (List.mem_filter.mp hsf).2
    rw [decide_eq_true_eq] at h2
    exact List.eq_nil_of_length_eq_zero h2
  refine ⟨h1, ?_, ?_, fun g2 e p h => reverse_dag_error_state g2 e p h⟩
  · simp [swapEdges, htm, htnext]
  · simp [swapEdges, hsm, hspre]

/-- Witness for claim C4 at the concrete chain `0 → 1`. -/
theorem claim_C4_reverse_postconditions_witness :
    (chain2.nodes.filter (fun n => decide ((chain2.pre n).length = 0)) = [0]) ∧
    (chain2.nodes.filter (fun n => decide ((chain2.next n).length = 0)) = [1]) ∧
    (reverse_dag chain2 = (.ok (0, 1), swapEdges chain2) ∧
      (swapEdges chain2).pre 1 = [] ∧ (swapEdges chain2).next 0 = [] ∧
      (∀ g2 e p, reverse_dag g2 = (.error e, p) → p = g2)) :=
  ⟨by decide, by decide, claim_C4_reverse_postconditions chain2 0 1 (by decide) (by decide)⟩

/-- Claim C5 counterexample: the backward (ancestor-closure) sort of the
diamond's sink starts with the sink itself, not with the source 0 as the claim
states. -/
theorem claim_C5_backward_order_counterexample :
    (topo_sort_backward diamond 3).head? = some 3 ∧
    ¬ (topo_sort_backward diamond 3).head? = some 0 := by decide

/-- Claim C5 as amended: for the diamond `0 → 1, 2 → 3`, the backward sort of
node 3 is exactly `[3, 2, 1, 0]` — it contains exactly the four closure nodes,
ordered successor before predecessor, with node 3 first and the source 0 last
(the reverse of the spec's stated order). -/
theorem claim_C5_backward_order_amended :
    topo_sort_backward diamond 3 = [3, 2, 1, 0] := by decide

/-- Claim C6 (code bug): after a full run with cache clearing on the valid
graph `dupInterior` (interior edge `1 → 2` duplicated), the source 0 and sink
3 keep their bounds entries, but the interior node 1 also keeps its
forward-cache entry: its raw successor count 2 is decremented only once
because `clear_fwd_cache` deduplicates the nodes it decrements. -/
theorem claim_C6_interior_cache_survives :
    TModel_init dupInterior "bfs" = .ok [0, 1, 2, 3] ∧
    TModel_run dupInterior [0, 1, 2, 3] true ⟨[0], []⟩ =
      .ok ⟨⟨[0, 1, 3], [1]⟩, [(1, 1)], [0, 2, 3]⟩ ∧
    (0 ∈ [0, 1, 3] ∧ 3 ∈ [0, 1, 3]) ∧
    (1 ∈ [0, 1, 3] ∧ dupInterior.pre 1 ≠ [] ∧ dupInterior.next 1 ≠ []) := by decide

/-- Claim C7 counterexample: constructing a `TModel` from the pure two-node
cycle raises the cycle error, not the `NoInput` error, because sorting runs
before the boundary-count check. -/
theorem claim_C7_no_input_counterexample :
    TModel_init twoCycle "bfs" = .error cycleMsg ∧
    TModel_init twoCycle "dfs" = .error cycleMsg ∧
    cycleMsg ≠ tNoInputMsg ∧ cycleMsg ≠ noInputMsg := by decide

/-- Claim C7 as amended: on any pure cycle (no zero-in-degree node),
`TModel.__init__` fails with `CycleDetected` under either strategy, while the
reversal-based path (`reverse_dag`, hence `T2Model.__init__`) fails with
`NoInput` and leaves the graph unchanged. -/
theorem claim_C7_pure_cycle_amended (g : Graph) (strategy : String)
    (hne : g.nodes ≠ []) (hc : ∀ n ∈ g.nodes, g.pre n ≠ []) :
    TModel_init g "bfs" = .error cycleMsg ∧
    TModel_init g "dfs" = .error cycleMsg ∧
    reverse_dag g = (.error noInputMsg, g) ∧
    T2Model_init g strategy = (.error noInputMsg, g) := by
  have hb := topo_bfs_pure_cycle g hne hc
  have hd := topo_dfs_pure_cycle g hne hc
  have hr := reverse_dag_no_input g hc
  refine ⟨?_, ?_, hr, ?_⟩
  · simp [TModel_init, hb]
  · simp [TModel_init, hd]
  · simp only [T2Model_init, hr]

/-- Witness for the amended claim C7 at the concrete two-node cycle. -/
theorem claim_C7_pure_cycle_amended_witness :
    (twoCycle.nodes ≠ [] ∧ ∀ n ∈ twoCycle.nodes, twoCycle.pre n ≠ []) ∧
    (TModel_init twoCycle "bfs" = .error cycleMsg ∧
      TModel_init twoCycle "dfs" = .error cycleMsg ∧
      reverse_dag twoCycle = (.error noInputMsg, twoCycle) ∧
      T2Model_init twoCycle "bfs" = (.error noInputMsg, twoCycle)) :=
  ⟨by decide, claim_C7_pure_cycle_amended twoCycle "bfs" (by decide) (by decide)⟩

/-- Claim C8 counterexample: `T2Model.__init__` with an unknown strategy fails
only after `reverse_dag` has already swapped every node's edge lists, so the
caller's graph is left mutated: node 0's predecessor list changes from `[]` to
`[1]`. -/
theorem claim_C8_mutated_graph_counterexample :
    (T2Model_init chain2 "xxx").1 = .error unknownStrategyMsg ∧
    (T2Model_init chain2 "xxx").2.pre 0 = [1] ∧ chain2.pre 0 = [] := by decide

/-- Claim C8 as amended: a boundary-count violation aborts `T2Model`
construction before any mutation, leaving the caller's graph unchanged, but
any later failure (cycle, unknown strategy, order assertion) leaves the graph
edge-swapped. -/
theorem claim_C8_construction_state_amended (g : Graph) (strategy : String) :
    (∀ e g1, reverse_dag g = (.error e, g1) → T2Model_init g strategy = (.error e, g)) ∧
    (∀ pr g2, reverse_dag g = (.ok pr, g2) → (T2Model_init g strategy).2 = swapEdges g) := by
  constructor
  · intro e g1 h
    have hg : g1 = g := reverse_dag_error_state g e g1 h
    subst hg
    simp only [T2Model_init, h]
  · intro pr g2 h
    have hg : g2 = swapEdges g := reverse_dag_ok_state g pr g2 h
    subst hg
    rcases pr with ⟨ui, uo⟩
    simp only [T2Model_init, h]
    rcases hsort : (if strategy = "dfs" then topo_sort_forward_dfs (swapEdges g)
        else if strategy = "bfs" then topo_sort_forward_bfs (swapEdges g)
        else .error unknownStrategyMsg) with e | sortedNodes
    · rfl
    · dsimp only
      by_cases h1 : sortedNodes.head? = some uo
      · by_cases h2 : sortedNodes.getLast? = some ui
        · rw [if_pos h1, if_pos h2]
        · rw [if_pos h1, if_neg h2]
      · rw [if_neg h1]

/-- Witness for the amended claim C8: the unknown-strategy failure on the
chain `0 → 1` leaves the swapped graph behind. -/
theorem claim_C8_construction_state_amended_witness :
    (T2Model_init chain2 "xxx").2 = swapEdges chain2 :=
  (claim_C8_construction_state_amended chain2 "xxx").2 (0, 1) (swapEdges chain2) rfl

/-- Claim C9: with the edge `0 → 1` listed twice on both sides
(`dupChain`), the wide-first sorter succeeds with the order `[0, 1, 2]`, the
model is accepted (the duplicate counts as one predecessor for cycle and
boundary purposes), and a full cleared run succeeds with every node's eviction
callback invoked at most once (the log is `[1, 2]`). -/
theorem claim_C9_duplicate_edge_tolerance :
    topo_sort_forward_bfs dupChain = .ok [0, 1, 2] ∧
    TModel_init dupChain "bfs" = .ok [0, 1, 2] ∧
    TModel_run dupChain [0, 1, 2] true ⟨[0], []⟩ =
      .ok ⟨⟨[0, 2], []⟩, [(0, 1)], [1, 2]⟩ ∧
    (∀ n ∈ dupChain.nodes, List.count n [1, 2] ≤ 1) := by decide

/-- Claim C10 (code bug): on the accepted graph `dupSkew` the wide-first order
starts at the unique source 0, but its last element is 3, not the unique sink
4 — the duplicate edge lets the sink be scheduled before its predecessor 3.
-/
theorem claim_C10_boundary_positions :
    TModel_init dupSkew "bfs" = .ok [0, 1, 2, 4, 3] ∧
    dupSkew.nodes.filter (fun n => decide ((dupSkew.pre n).length = 0)) = [0] ∧
    dupSkew.nodes.filter (fun n => decide ((dupSkew.next n).length = 0)) = [4] ∧
    [0, 1, 2, 4, 3].head? = some 0 ∧
    [0, 1, 2, 4, 3].getLast? = some 3 ∧ (3 : Nat) ≠ 4 := by decide
